import Mathlib

/-!
Verification development for the domain-research dashboard repository.

The logic core of the repository consists of:
* `sanitizeDomain` / `validateDomain` (domain normalizer, src/types.ts),
* the URL-template substitution performed in the tool card effect and in
  the batch-open loop (`handleOpenSelected`),
* the favorites-loading effect (JSON parsing of persisted state).

The embedding works on `List Char` internally and wraps results into
`String` at the interface.  JavaScript library primitives used by the
code (`String.prototype.trim/replace/split`, `new URL(...).hostname`,
`JSON.parse`) are modelled explicitly below; each model documents the
fragment of the host behaviour it covers.
-/

/-- ASCII lowercase letter test. -/
def isLowerAlpha (c : Char) : Bool := 'a' ≤ c && c ≤ 'z'

/-- ASCII uppercase letter test. -/
def isUpperAlpha (c : Char) : Bool := 'A' ≤ c && c ≤ 'Z'

/-- ASCII letter test. -/
def isAsciiAlpha (c : Char) : Bool := isLowerAlpha c || isUpperAlpha c

/-- ASCII digit test. -/
def isAsciiDigit (c : Char) : Bool := '0' ≤ c && c ≤ '9'

/-- ASCII alphanumeric test. -/
def isAlnumC (c : Char) : Bool := isAsciiAlpha c || isAsciiDigit c

/-- ASCII hexadecimal digit test. -/
def isHexDigitC (c : Char) : Bool :=
  isAsciiDigit c || ('a' ≤ c && c ≤ 'f') || ('A' ≤ c && c ≤ 'F')

/-- Lowercase an ASCII letter, leave every other character unchanged
(the ASCII part of JavaScript `toLowerCase` and of URL host lowercasing). -/
def lowerChar (c : Char) : Char :=
  if isUpperAlpha c then Char.ofNat (c.toNat + 32) else c

/-- The whitespace characters removed by JavaScript `String.prototype.trim`
(WhiteSpace ∪ LineTerminator of the ECMAScript grammar). -/
def isJsWhitespace (c : Char) : Bool :=
  let n := c.toNat
  n == 9 || n == 10 || n == 11 || n == 12 || n == 13 || n == 32 ||
  n == 0xa0 || n == 0x1680 || (0x2000 ≤ n && n ≤ 0x200a) ||
  n == 0x2028 || n == 0x2029 || n == 0x202f || n == 0x205f ||
  n == 0x3000 || n == 0xfeff

/-- Drop `p`-satisfying characters from the right end of a list. -/
def dropWhileEnd (p : Char → Bool) (l : List Char) : List Char :=
  (l.reverse.dropWhile p).reverse

/-- JavaScript `String.prototype.trim` on the character list. -/
def jsTrim (l : List Char) : List Char :=
  dropWhileEnd isJsWhitespace (l.dropWhile isJsWhitespace)

/-- JavaScript `String.prototype.split` with a single-character separator:
splitting never yields the empty list, and empty segments are kept
(`"".split('.') = [""]`, `".".split('.') = ["", ""]`). -/
def splitOnChar (sep : Char) : List Char → List (List Char)
  | [] => [[]]
  | c :: cs =>
    match splitOnChar sep cs with
    | [] => [[c]]
    | h :: t => if c = sep then [] :: h :: t else (c :: h) :: t

/-- Substring search: does `pat` occur contiguously in `l`
(JavaScript `String.prototype.includes`)? -/
def containsSubstr (l pat : List Char) : Bool :=
  match l with
  | [] => pat.isEmpty
  | _ :: r => pat.isPrefixOf l || containsSubstr r pat

/-- The character class `[a-zA-Z0-9.-]` accepted by the validator
(rule 3 of `validateDomain`). -/
def allowedDomainChar (c : Char) : Bool :=
  isAlnumC c || c = '.' || c = '-'

/-- Error message of validator rule 1 (empty input). -/
def msgEmpty : String := "Please enter a domain name."

/-- Error message of validator rule 2 (overall length). -/
def msgTooLong : String := "Domain is too long (maximum 253 characters)."

/-- Error message of validator rule 3 (character class). -/
def msgInvalidChars : String :=
  "Domain contains invalid characters. Use only letters, numbers, hyphens, and periods."

/-- Error message of validator rule 4 (no dot). -/
def msgNoTld : String := "Invalid format. A domain must include a TLD (e.g., \".com\")."

/-- Error message of validator rule 5 (empty label). -/
def msgEmptyLabel : String := "Invalid format. Found consecutive or trailing periods."

/-- Error message of validator rule 6, which interpolates the offending label:
`A part of the domain ("<label>") is too long (maximum 63 characters).` -/
def msgLabelTooLong (lab : List Char) : String :=
  "A part of the domain (\"" ++ String.mk lab ++ "\") is too long (maximum 63 characters)."

/-- Error message of validator rule 7 (hyphen placement). -/
def msgHyphen : String := "Domain parts cannot start or end with a hyphen."

/-- Error message of validator rule 8 (numeric TLD). -/
def msgNumericTld : String :=
  "The Top-Level Domain (TLD) cannot be composed entirely of numbers."

/-- Error message of validator rule 9 (structural regex). -/
def msgBadFormat : String :=
  "Invalid domain format. Please use a format like \"example.com\"."

/-- The per-label loop of `validateDomain` (src/types.ts lines 73-80):
for each label, in order, first the 63-character bound is checked and then
the hyphen-placement rule; the first violation wins. -/
def checkLabels : List (List Char) → Option String
  | [] => none
  | lab :: rest =>
    if lab.length > 63 then some (msgLabelTooLong lab)
    else if lab.head? = some '-' || lab.getLast? = some '-' then some msgHyphen
    else checkLabels rest

/-- One dot-free group of the structural regex:
`[a-zA-Z0-9]([a-zA-Z0-9-]{0,61}[a-zA-Z0-9])?` —
a label of length 1 to 63 whose first and last characters are alphanumeric
and whose characters are alphanumeric or hyphen. -/
def regexLabel (p : List Char) : Bool :=
  match p.head?, p.getLast? with
  | some a, some b =>
    isAlnumC a && isAlnumC b && p.all (fun c => isAlnumC c || c = '-') && p.length ≤ 63
  | _, _ => false

/-- The TLD group of the structural regex: `[a-zA-Z][a-zA-Z0-9-]{1,}` —
a letter followed by one or more alphanumeric-or-hyphen characters. -/
def regexTld (p : List Char) : Bool :=
  match p with
  | c :: rest => isAsciiAlpha c && !rest.isEmpty && rest.all (fun d => isAlnumC d || d = '-')
  | [] => false

/-- The anchored structural regex of validator rule 9:
`^([a-zA-Z0-9]([a-zA-Z0-9-]{0,61}[a-zA-Z0-9])?\.)+[a-zA-Z][a-zA-Z0-9-]{1,}$`.
Neither group can contain a dot, and the pattern is anchored at both ends,
so a match decomposes uniquely at the dots: at least two dot-separated
parts, every part but the last matching the label group, the last part
matching the TLD group. -/
def matchesDomainRegex (t : List Char) : Bool :=
  let parts := splitOnChar '.' t
  parts.length ≥ 2 && parts.dropLast.all regexLabel && regexTld (parts.getLastD [])

/-- `validateDomain` from src/types.ts lines 48-94, rule for rule and in
source order.  The input is trimmed first and every check runs on the
trimmed string.  Length counts characters, which agrees with JavaScript's
UTF-16 `length` whenever it matters: a string passing rule 3 is pure
ASCII, and a non-ASCII string is rejected (by rule 2 or rule 3) in both
countings. -/
def validateDomain (s : String) : Option String :=
  let t := jsTrim s.data
  if t.isEmpty then some msgEmpty
  else if t.length > 253 then some msgTooLong
  else if t.any (fun c => !allowedDomainChar c) then some msgInvalidChars
  else if !(t.contains '.') then some msgNoTld
  else
    let labels := splitOnChar '.' t
    if labels.any List.isEmpty then some msgEmptyLabel
    else
      match checkLabels labels with
      | some e => some e
      | none =>
        let tld := labels.getLastD []
        if !tld.isEmpty && tld.all isAsciiDigit then some msgNumericTld
        else if !matchesDomainRegex t then some msgBadFormat
        else none

/-!
Model of `new URL(s).hostname` (the WHATWG URL parser) for the fragment
exercised by `sanitizeDomain`.  The model follows the WHATWG basic URL
parser for absolute URLs with a special scheme (`http`, `https`, `ws`,
`wss`, `ftp`): input trimming, scheme parsing, slash skipping, authority
and userinfo handling, port validation, forbidden-domain-code-point
checks, ASCII lowercasing, and IPv4 address detection/normalization.
Outside the fragment the model returns `none` (parse failure):
non-special and `file` schemes, IPv6 bracket hosts, percent-encoded or
non-ASCII (IDNA) hosts are not modelled.
-/

/-- C0 control or space: removed from both ends by the URL parser. -/
def isC0OrSpace (c : Char) : Bool := c.toNat ≤ 32

/-- ASCII tab or newline: removed everywhere by the URL parser. -/
def isTabOrNewline (c : Char) : Bool :=
  c.toNat == 9 || c.toNat == 10 || c.toNat == 13

/-- Characters allowed after the first one in a URL scheme. -/
def isSchemeChar (c : Char) : Bool :=
  isAlnumC c || c = '+' || c = '-' || c = '.'

/-- The special schemes the model handles (the `file` scheme, whose host
handling differs, is deliberately excluded and fails in the model). -/
def specialSchemes : List (List Char) :=
  [['h','t','t','p'], ['h','t','t','p','s'], ['w','s'], ['w','s','s'], ['f','t','p']]

/-- Split off the scheme: a leading ASCII letter, then scheme characters,
then a colon.  Returns the (unlowered) scheme and the remainder, or
`none` when the input has no valid scheme. -/
def splitScheme (l : List Char) : Option (List Char × List Char) :=
  match l with
  | [] => none
  | c :: rest =>
    if isAsciiAlpha c then
      match rest.dropWhile isSchemeChar with
      | ':' :: r => some (c :: rest.takeWhile isSchemeChar, r)
      | _ => none
    else none

/-- Forbidden host code points of the URL standard. -/
def forbiddenHostChar (c : Char) : Bool :=
  let n := c.toNat
  n == 0 || n == 9 || n == 10 || n == 13 || n == 32 ||
  c = '#' || c = '/' || c = ':' || c = '<' || c = '>' || c = '?' ||
  c = '@' || c = '[' || c = '\\' || c = ']' || c = '^' || c = '|'

/-- Forbidden domain code points: forbidden host code points plus C0
controls, `%` and U+007F. -/
def forbiddenDomainChar (c : Char) : Bool :=
  forbiddenHostChar c || c.toNat < 32 || c = '%' || c.toNat == 127

/-- Decimal value of a digit list (digits only; used for ports and IPv4). -/
def decValue (l : List Char) : Nat :=
  l.foldl (fun acc c => acc * 10 + (c.toNat - 48)) 0

/-- Hexadecimal value of a hex-digit list. -/
def hexValue (l : List Char) : Nat :=
  l.foldl (fun acc c =>
    acc * 16 + (if isAsciiDigit c then c.toNat - 48
                else if 'a' ≤ c && c ≤ 'f' then c.toNat - 87
                else c.toNat - 55)) 0

/-- Octal value of an octal-digit list. -/
def octValue (l : List Char) : Nat :=
  l.foldl (fun acc c => acc * 8 + (c.toNat - 48)) 0

/-- The WHATWG IPv4 number parser: `0x`/`0X` introduces hexadecimal,
a leading `0` of a longer numeral introduces octal, otherwise decimal;
anything else fails. -/
def parseIPv4Num (p : List Char) : Option Nat :=
  match p with
  | [] => none
  | '0' :: 'x' :: rest => if rest.all isHexDigitC then some (hexValue rest) else none
  | '0' :: 'X' :: rest => if rest.all isHexDigitC then some (hexValue rest) else none
  | ['0'] => some 0
  | '0' :: rest => if rest.all (fun c => '0' ≤ c && c ≤ '7') then some (octValue rest) else none
  | _ => if p.all isAsciiDigit then some (decValue p) else none

/-- The "ends in a number" host check of the URL standard (applied to the
already-lowercased ASCII host): the last non-empty dot-separated part is
all digits, or is `0x`/`0X` followed by hex digits. -/
def endsInNumber (l : List Char) : Bool :=
  let parts := splitOnChar '.' l
  let parts' := if parts.getLastD [] = ([] : List Char) then parts.dropLast else parts
  match parts'.getLastD [] with
  | [] => false
  | last =>
    last.all isAsciiDigit ||
    (match last with
     | '0' :: 'x' :: rest => rest.all isHexDigitC
     | '0' :: 'X' :: rest => rest.all isHexDigitC
     | _ => false)

/-- Decimal digit characters of a natural number, with structural fuel
(the fuel `n + 1` always suffices since each step divides by ten). -/
def natToDecAux : Nat → Nat → List Char
  | 0, _ => []
  | fuel + 1, n =>
    if n < 10 then [Char.ofNat (48 + n)]
    else natToDecAux fuel (n / 10) ++ [Char.ofNat (48 + n % 10)]

/-- Decimal digit characters of a natural number. -/
def natToDec (n : Nat) : List Char := natToDecAux (n + 1) n

/-- Serialize a 32-bit IPv4 address as dotted decimal. -/
def serializeIPv4 (n : Nat) : List Char :=
  natToDec (n / 16777216 % 256) ++ '.' ::
  natToDec (n / 65536 % 256) ++ '.' ::
  natToDec (n / 256 % 256) ++ '.' ::
  natToDec (n % 256)

/-- Core of the WHATWG IPv4 parser, on the already-prepared parts list:
at most four parts, every part a valid IPv4 number, every part but the
last at most 255, the last part below `256^(5-n)`; the result is the
normalized dotted-decimal form. -/
def parseIPv4Parts (parts' : List (List Char)) : Option (List Char) :=
  if parts'.isEmpty || parts'.length > 4 then none
  else
    match (parts'.mapM parseIPv4Num : Option (List Nat)) with
    | none => none
    | some vals =>
      if vals.dropLast.any (fun v => v > 255) then none
      else
        if vals.getLastD 0 ≥ 256 ^ (5 - vals.length) then none
        else
          some (serializeIPv4
            (vals.dropLast.foldl (fun acc v => acc * 256 + v) 0 * 256 ^ (5 - vals.length) +
              vals.getLastD 0))

/-- The WHATWG IPv4 parser on a host that ends in a number: one trailing
empty part (a final dot) is dropped first. -/
def parseIPv4 (l : List Char) : Option (List Char) :=
  let parts := splitOnChar '.' l
  parseIPv4Parts (if parts.getLastD [] = ([] : List Char) then parts.dropLast else parts)

/-- Everything after the last `@` of the authority (the userinfo,
if any, is everything before it). -/
def afterLastAt (l : List Char) : List Char :=
  (l.reverse.takeWhile (· ≠ '@')).reverse

/-- Parse the host-port segment: reject IPv6 bracket hosts (not
modelled), split off an optional `:port`, and require the port to be
all digits with value at most 65535.  Returns the raw host. -/
def splitHostPort (hp : List Char) : Option (List Char) :=
  if hp.head? = some '[' then none
  else
    let host := hp.takeWhile (· ≠ ':')
    match hp.dropWhile (· ≠ ':') with
    | [] => some host
    | _ :: pd => if pd.all isAsciiDigit && decValue pd ≤ 65535 then some host else none

/-- Host parsing for a special scheme: the host must be non-empty, all
ASCII and free of forbidden domain code points; it is ASCII-lowercased,
and a host that ends in a number must be a valid IPv4 address, which is
normalized.  The domain-to-ASCII (UTS46/IDNA) step of the real parser
is outside the modelled fragment: non-ASCII hosts fail here (the real
parser punycodes them), and labels starting with `xn--` are passed
through without the punycode validation the real parser applies, so the
theorems about `sanitizeDomain` exclude such labels by hypothesis. -/
def domainHost (host : List Char) : Option (List Char) :=
  if host.isEmpty then none
  else if host.any (fun c => 127 ≤ c.toNat || forbiddenDomainChar c) then none
  else
    let low := host.map lowerChar
    if endsInNumber low then parseIPv4 low else some low

/-- Host-port splitting for a non-special scheme's authority: IPv6
bracket hosts are not modelled; an optional `:port` must be all digits
with value at most 65535, and a port with an empty host before it is a
failure (host-missing).  Returns the raw host, possibly empty. -/
def splitHostPortOpaque (hp : List Char) : Option (List Char) :=
  if hp.head? = some '[' then none
  else
    let host := hp.takeWhile (· ≠ ':')
    match hp.dropWhile (· ≠ ':') with
    | [] => some host
    | _ :: pd =>
      if host.isEmpty then none
      else if pd.all isAsciiDigit && decValue pd ≤ 65535 then some host else none

/-- Opaque-host parsing for non-special schemes: the host is kept
verbatim — case preserved, no lowercasing or IPv4 handling — after
checking for forbidden host code points.  Characters the real parser
would percent-encode (C0 controls not already forbidden, and code
points above U+007E) are outside the modelled fragment and fail. -/
def opaqueHost (host : List Char) : Option (List Char) :=
  if host.any (fun c => forbiddenHostChar c || c.toNat < 33 || 126 < c.toNat) then none
  else some host

/-- Model of `new URL(s).hostname` for absolute URLs (`none` models a
thrown `TypeError`).  Steps: trim C0/space from both ends, delete tabs
and newlines, parse the scheme; for a special scheme, skip every slash
or backslash after the colon, take the authority up to the first `/`,
`?`, `#` or `\`, drop userinfo up to the last `@`, validate an optional
port, and parse the remaining host as a domain; for a non-special
scheme other than `file` (which is outside the modelled fragment), an
authority introduced by `//` yields a case-preserving opaque host —
userinfo with an empty host is a failure — and anything else is an
opaque path with an empty hostname. -/
def parseHostname (l : List Char) : Option (List Char) :=
  let l1 := (dropWhileEnd isC0OrSpace (l.dropWhile isC0OrSpace)).filter
    (fun c => !isTabOrNewline c)
  match splitScheme l1 with
  | none => none
  | some (sch, rest) =>
    if (sch.map lowerChar) ∈ specialSchemes then
      let rest2 := rest.dropWhile (fun c => c = '/' || c = '\\')
      let auth := rest2.takeWhile (fun c => !(c = '/' || c = '?' || c = '#' || c = '\\'))
      match splitHostPort (afterLastAt auth) with
      | none => none
      | some host => domainHost host
    else if (sch.map lowerChar) = ['f','i','l','e'] then none
    else
      match rest with
      | '/' :: '/' :: rest2 =>
        let auth := rest2.takeWhile (fun c => !(c = '/' || c = '?' || c = '#'))
        if auth.contains '@' && (afterLastAt auth).isEmpty then none
        else
          match splitHostPortOpaque (afterLastAt auth) with
          | none => none
          | some host => opaqueHost host
      | _ => some []

/-- Strip one leading `www.` (the case-sensitive regex `/^www\./`). -/
def stripWww (l : List Char) : List Char :=
  if ['w','w','w','.'].isPrefixOf l then l.drop 4 else l

/-- The catch-branch of `sanitizeDomain` (src/types.ts lines 31-40):
trim and lowercase, strip a leading `http://` or `https://`, strip a
leading `www.`, truncate at the first `/`, then drop every character
outside `[a-z0-9.-]`. -/
def sanitizeFallback (l : List Char) : List Char :=
  let t := (jsTrim l).map lowerChar
  let t1 :=
    if ['h','t','t','p','s',':','/','/'].isPrefixOf t then t.drop 8
    else if ['h','t','t','p',':','/','/'].isPrefixOf t then t.drop 7
    else t
  let t2 := if ['w','w','w','.'].isPrefixOf t1 then t1.drop 4 else t1
  let t3 := t2.takeWhile (· ≠ '/')
  t3.filter (fun c => isLowerAlpha c || isAsciiDigit c || c = '.' || c = '-')

/-- `sanitizeDomain` from src/types.ts lines 23-42 on character lists:
empty input maps to empty output; otherwise `https://` is prepended
unless the input contains `://`, the result is URL-parsed, and on
success the hostname with one leading `www.` stripped is returned; on
parse failure the manual fallback runs. -/
def sanitizeL (l : List Char) : List Char :=
  if l.isEmpty then []
  else
    match parseHostname (if containsSubstr l [':','/','/'] then l
                         else ['h','t','t','p','s',':','/','/'] ++ l) with
    | some h => stripWww h
    | none => sanitizeFallback l

/-- `sanitizeDomain` at the `String` interface. -/
def sanitizeDomain (s : String) : String := String.mk (sanitizeL s.data)

/-!
Model of the link generator: the URL-template substitution of the tool
card effect (ToolCard, src/unnamed/part_001 lines 18-40) and of the
batch-open loop (`handleOpenSelected`, Dashboard section of src/types.ts
lines 254-279).  JavaScript `String.prototype.replace` with a string
pattern replaces the first occurrence and interprets `$` sequences in
the replacement (`$$`, `$&`, `` $` ``, `$'`); the model implements that
`GetSubstitution` behaviour (there are no capture groups, so `$<digit>`
stays literal).
-/

/-- Index of the first occurrence of `pat` in `l`, if any. -/
def findOcc (l pat : List Char) : Option Nat :=
  match l with
  | [] => if pat.isEmpty then some 0 else none
  | c :: r => if pat.isPrefixOf (c :: r) then some 0 else (findOcc r pat).map (· + 1)

/-- ECMAScript `GetSubstitution` for a string pattern without capture
groups: `$$` is a literal dollar, `$&` the matched text, `` $` `` the
text before the match, `$'` the text after it; any other `$` sequence is
copied literally. -/
def expandRepl (matched before after : List Char) : List Char → List Char
  | [] => []
  | c :: r =>
    if c = '$' then
      match r with
      | [] => ['$']
      | c2 :: r2 =>
        if c2 = '$' then '$' :: expandRepl matched before after r2
        else if c2 = '&' then matched ++ expandRepl matched before after r2
        else if c2.toNat == 96 then before ++ expandRepl matched before after r2
        else if c2.toNat == 39 then after ++ expandRepl matched before after r2
        else '$' :: c2 :: expandRepl matched before after r2
    else c :: expandRepl matched before after r

/-- JavaScript `String.prototype.replace` with a string pattern on
character lists: replace the first occurrence of `pat` by the expansion
of `rep`; when `pat` does not occur the string is unchanged. -/
def jsReplaceL (l pat rep : List Char) : List Char :=
  match findOcc l pat with
  | none => l
  | some i =>
    l.take i ++ expandRepl pat (l.take i) (l.drop (i + pat.length)) rep ++
      l.drop (i + pat.length)

/-- JavaScript `replace` at the `String` interface. -/
def jsReplace (s pat rep : String) : String := String.mk (jsReplaceL s.data pat.data rep.data)

/-- The literal placeholder token `{{DOMAIN}}`. -/
def tokDomain : String := "\x7b\x7bDOMAIN\x7d\x7d"

/-- The literal placeholder token `{{DOMAIN_NAME}}`. -/
def tokDomainName : String := "\x7b\x7bDOMAIN_NAME\x7d\x7d"

/-- The `urlType` enumeration of the tool catalog. -/
inductive UrlType
  | domain
  | domain_name
deriving DecidableEq

/-- The `Tool` record of src/types.ts (the `Icon` React component is
presentation-only and omitted; `urlType` is optional in the source). -/
structure Tool where
  id : String
  title : String
  description : String
  urlTemplate : String
  urlType : Option UrlType
  category : String

/-- `getDomainPart` from the tool card effect: for `domain_name` tools,
`fullDomain.split('.')[0] || fullDomain` (the first dot-separated
segment, falling back to the full domain when that segment is empty);
otherwise the full domain. -/
def getDomainPart (fullDomain : String) (t : Option UrlType) : String :=
  if t = some UrlType.domain_name then
    match (splitOnChar '.' fullDomain.data).head? with
    | some h => if h.isEmpty then fullDomain else String.mk h
    | none => fullDomain
  else fullDomain

/-- The URL string computed in the tool card effect:
`tool.urlTemplate.replace('{{DOMAIN}}', domain).replace('{{DOMAIN_NAME}}', domainPart)`. -/
def substitutedUrlCard (tool : Tool) (domain : String) : String :=
  jsReplace (jsReplace tool.urlTemplate tokDomain domain) tokDomainName
    (getDomainPart domain tool.urlType)

/-- Outcome of the tool card effect (ToolCard `useEffect`): the
substituted URL is validated with `new URL(url)`; on success the card
holds the URL (`finalUrl = url`, status `idle`), on any exception the
catch branch yields the error state (`finalUrl = '#'`, status `error`).
`Except.error` carries the `finalUrl` of the error state. -/
def generateLink (tool : Tool) (domain : String) : Except String String :=
  match parseHostname (substitutedUrlCard tool domain).data with
  | some _ => Except.ok (substitutedUrlCard tool domain)
  | none => Except.error "#"

/-- The `domainPart` expression of the batch-open loop
(`tool.urlType === 'domain_name' ? (domain.split('.')[0] || domain) : domain`). -/
def batchDomainPart (tool : Tool) (domain : String) : String :=
  if tool.urlType = some UrlType.domain_name then
    match (splitOnChar '.' domain.data).head? with
    | some h => if h.isEmpty then domain else String.mk h
    | none => domain
  else domain

/-- The URL string computed in the batch-open loop for one tool. -/
def batchUrl (tool : Tool) (domain : String) : String :=
  jsReplace (jsReplace tool.urlTemplate tokDomain domain) tokDomainName
    (batchDomainPart tool domain)

/-- `handleOpenSelected` (Dashboard): iterate over the selected tool ids
in order; ids with no matching catalog entry are skipped; for every
match the URL is computed and `window.open` is called on it immediately.
Nothing inside the `try` block can throw (string `replace` and `split`
are total and `window.open` does not validate its argument), so the
model records one opened URL per found tool, unconditionally; the
`catch` branch is unreachable.  The returned list is the sequence of
URLs passed to `window.open`, in call order. -/
def handleOpenSelected (selectedTools : List String) (tools : List Tool)
    (domain : String) : List String :=
  selectedTools.foldl (fun opened toolId =>
    match tools.find? (fun t => t.id == toolId) with
    | none => opened
    | some tool => opened ++ [batchUrl tool domain]) []

/-- Modelled from the spec: plain first-occurrence replacement, following
the spec's words "replace the first occurrence of literal token ... with
...", with the replacement text inserted verbatim.  Comparison
definition for the substitution claims; the source behaviour is
`jsReplaceL`. -/
def specReplaceFirstL (l pat rep : List Char) : List Char :=
  match findOcc l pat with
  | none => l
  | some i => l.take i ++ rep ++ l.drop (i + pat.length)

/-- Modelled from the spec: "if `tool.urlType == domain_name`, take the
substring of `domain` before its first `.` (fallback to the full domain
if there is no `.` or the prefix is empty); otherwise the full domain".
Comparison definition for the substitution claims. -/
def specDomainPart (domain : String) (t : Option UrlType) : String :=
  if t = some UrlType.domain_name then
    let pre := domain.data.takeWhile (· ≠ '.')
    if pre.isEmpty then domain else String.mk pre
  else domain

/-- Modelled from the spec: substitute `{{DOMAIN}}` by the domain and
`{{DOMAIN_NAME}}` by the domain part in the template, each replacing the
first occurrence verbatim.  Comparison definition for the substitution
claims. -/
def specSubstitute (tool : Tool) (domain : String) : String :=
  String.mk (specReplaceFirstL
    (specReplaceFirstL tool.urlTemplate.data tokDomain.data domain.data)
    tokDomainName.data (specDomainPart domain tool.urlType).data)

/-!
Model of `JSON.parse` for the favorites-loading effect (App,
src/unnamed/part_001 lines 215-225).  The model implements the JSON
grammar: whitespace, `null`, booleans, numbers, strings with escapes,
arrays and objects.  Numbers are kept as their raw lexeme (JavaScript
produces IEEE doubles; no claim compares numeric values).  Object
members are kept in source order (JavaScript keeps the last duplicate;
no claim inspects object members).  A `\uXXXX` escape denoting a
surrogate half is outside the model (Lean characters are scalar
values). -/

/-- JSON values as produced by the modelled `JSON.parse`. -/
inductive Json where
  | null
  | bool (b : Bool)
  | num (raw : String)
  | str (s : String)
  | arr (xs : List Json)
  | obj (fields : List (String × Json))

/-- JSON insignificant whitespace. -/
def jsonWsChar (c : Char) : Bool := c = ' ' || c = '\t' || c = '\n' || c = '\r'

/-- Skip JSON whitespace. -/
def skipJsonWs (l : List Char) : List Char := l.dropWhile jsonWsChar

/-- Single-character JSON string escapes. -/
def jsonEscapeChar (e : Char) : Option Char :=
  if e = '"' then some '"'
  else if e = '\\' then some '\\'
  else if e = '/' then some '/'
  else if e = 'b' then some (Char.ofNat 8)
  else if e = 'f' then some (Char.ofNat 12)
  else if e = 'n' then some '\n'
  else if e = 'r' then some '\r'
  else if e = 't' then some '\t'
  else none

/-- Body of a JSON string after the opening quote: returns the decoded
characters and the input after the closing quote.  Unescaped control
characters are a syntax error. -/
def parseJsonStringBody : List Char → Option (List Char × List Char)
  | [] => none
  | '"' :: r => some ([], r)
  | '\\' :: 'u' :: a :: b :: c :: d :: rest =>
    if [a, b, c, d].all isHexDigitC then
      (parseJsonStringBody rest).map
        (fun p => (Char.ofNat (hexValue [a, b, c, d]) :: p.1, p.2))
    else none
  | '\\' :: e :: rest =>
    match jsonEscapeChar e with
    | some ch => (parseJsonStringBody rest).map (fun p => (ch :: p.1, p.2))
    | none => none
  | c :: r =>
    if c.toNat < 32 then none
    else (parseJsonStringBody r).map (fun p => (c :: p.1, p.2))

/-- One or more ASCII digits. -/
def parseDigits1 (l : List Char) : Option (List Char × List Char) :=
  let d := l.takeWhile isAsciiDigit
  if d.isEmpty then none else some (d, l.drop d.length)

/-- Optional fraction part of a JSON number. -/
def parseFracPart (l : List Char) : Option (List Char × List Char) :=
  match l with
  | '.' :: r => (parseDigits1 r).map (fun p => ('.' :: p.1, p.2))
  | _ => some ([], l)

/-- Exponent digits after an `e`/`E`, with an optional sign. -/
def parseExpTail (e : Char) (r : List Char) : Option (List Char × List Char) :=
  match r with
  | '+' :: rr => (parseDigits1 rr).map (fun p => (e :: '+' :: p.1, p.2))
  | '-' :: rr => (parseDigits1 rr).map (fun p => (e :: '-' :: p.1, p.2))
  | _ => (parseDigits1 r).map (fun p => (e :: p.1, p.2))

/-- Optional exponent part of a JSON number. -/
def parseExpPart (l : List Char) : Option (List Char × List Char) :=
  match l with
  | 'e' :: r => parseExpTail 'e' r
  | 'E' :: r => parseExpTail 'E' r
  | _ => some ([], l)

/-- Optional fraction and exponent of a JSON number, appended to the
integer part; returns the raw lexeme. -/
def parseFracExp (intPart : List Char) (l : List Char) : Option (List Char × List Char) :=
  (parseFracPart l).bind (fun fr =>
    (parseExpPart fr.2).map (fun ex => (intPart ++ fr.1 ++ ex.1, ex.2)))

/-- A JSON number lexeme: `-? (0 | [1-9][0-9]*) frac? exp?`. -/
def parseJsonNumber (l : List Char) : Option (List Char × List Char) :=
  let sl : List Char × List Char := match l with
    | '-' :: r => (['-'], r)
    | _ => ([], l)
  match sl.2 with
  | [] => none
  | c :: r =>
    if c = '0' then parseFracExp (sl.1 ++ ['0']) r
    else if isAsciiDigit c then
      parseFracExp (sl.1 ++ c :: r.takeWhile isAsciiDigit) (r.dropWhile isAsciiDigit)
    else none

mutual

/-- A JSON value, with fuel bounding recursion depth (the fuel passed by
`jsonParse` is ample for every input). -/
def parseJsonValue : Nat → List Char → Option (Json × List Char)
  | 0, _ => none
  | fuel + 1, l =>
    match skipJsonWs l with
    | [] => none
    | c :: r =>
      if c = 'n' then
        match r with
        | 'u' :: 'l' :: 'l' :: rest => some (Json.null, rest)
        | _ => none
      else if c = 't' then
        match r with
        | 'r' :: 'u' :: 'e' :: rest => some (Json.bool true, rest)
        | _ => none
      else if c = 'f' then
        match r with
        | 'a' :: 'l' :: 's' :: 'e' :: rest => some (Json.bool false, rest)
        | _ => none
      else if c = '"' then
        (parseJsonStringBody r).map (fun p => (Json.str (String.mk p.1), p.2))
      else if c = '[' then
        match skipJsonWs r with
        | ']' :: rest => some (Json.arr [], rest)
        | r1 => (parseJsonElems fuel r1).map (fun p => (Json.arr p.1, p.2))
      else if c = '\x7b' then
        match skipJsonWs r with
        | '\x7d' :: rest => some (Json.obj [], rest)
        | r1 => (parseJsonMembers fuel r1).map (fun p => (Json.obj p.1, p.2))
      else
        (parseJsonNumber (c :: r)).map (fun p => (Json.num (String.mk p.1), p.2))

/-- Comma-separated array elements up to the closing bracket. -/
def parseJsonElems : Nat → List Char → Option (List Json × List Char)
  | 0, _ => none
  | fuel + 1, l =>
    (parseJsonValue fuel l).bind (fun p =>
      match skipJsonWs p.2 with
      | ',' :: r2 => (parseJsonElems fuel r2).map (fun q => (p.1 :: q.1, q.2))
      | ']' :: r2 => some ([p.1], r2)
      | _ => none)

/-- Comma-separated object members up to the closing brace. -/
def parseJsonMembers : Nat → List Char → Option (List (String × Json) × List Char)
  | 0, _ => none
  | fuel + 1, l =>
    match skipJsonWs l with
    | '"' :: r =>
      (parseJsonStringBody r).bind (fun k =>
        match skipJsonWs k.2 with
        | ':' :: r2 =>
          (parseJsonValue fuel r2).bind (fun v =>
            match skipJsonWs v.2 with
            | ',' :: r3 =>
              (parseJsonMembers fuel r3).map (fun q => ((String.mk k.1, v.1) :: q.1, q.2))
            | '\x7d' :: r3 => some ([(String.mk k.1, v.1)], r3)
            | _ => none)
        | _ => none)
    | _ => none

end

/-- `JSON.parse` model: parse one value and require only whitespace to
remain; on any syntax error the result is `none` (modelling the thrown
`SyntaxError`). -/
def jsonParse (s : String) : Option Json :=
  match parseJsonValue (2 * s.data.length + 2) s.data with
  | some (v, rest) => if (skipJsonWs rest).isEmpty then some v else none
  | none => none

/-- The favorites-loading effect (App, src/unnamed/part_001 lines
215-225): the state starts as the empty list; an absent stored value
(`getItem` returns `null`) or an empty string is falsy and leaves the
state untouched; otherwise `setFavorites(JSON.parse(stored))` installs
whatever value parses — with no shape check — and a parse exception is
caught and resets the state to the empty list.  The result is the
favorites state after the effect, as a JSON value (the initial TS value
`[]` is the empty array). -/
def loadFavorites (stored : Option String) : Json :=
  match stored with
  | none => Json.arr []
  | some s =>
    if s.isEmpty then Json.arr []
    else
      match jsonParse s with
      | some v => v
      | none => Json.arr []

/-- Everything the URL host parser accepts: ASCII and not a forbidden
domain code point.  Outputs of `sanitizeDomain` satisfy this together
with the absence of uppercase letters. -/
def hostOkChar (c : Char) : Bool := c.toNat < 128 && !forbiddenDomainChar c

/-! ### Model sanity checks on concrete inputs -/

example : validateDomain "example.com" = none := by decide
example : validateDomain " example.com" = none := by decide
example : validateDomain "example" = some msgNoTld := by decide
example : validateDomain "-bad.com" = some msgHyphen := by decide
example : validateDomain "example.123" = some msgNumericTld := by decide
example : validateDomain "a..b" = some msgEmptyLabel := by decide
example : validateDomain "" = some msgEmpty := by decide
example : validateDomain "exa mple.com" = some msgInvalidChars := by decide
example : validateDomain "example.c" = some msgBadFormat := by decide

example : sanitizeDomain "" = "" := by decide
example : sanitizeDomain "https://WWW.Example.com/path?x=1" = "example.com" := by decide
example : sanitizeDomain "Example.com" = "example.com" := by decide
example : sanitizeDomain "www.www.example.com" = "www.example.com" := by decide
example : sanitizeDomain "www.example.com" = "example.com" := by decide
example : sanitizeDomain "1.2.3 .04" = "1.2.3.04" := by decide
example : sanitizeDomain "1.2.3.04" = "1.2.3.4" := by decide
example : sanitizeDomain "http://user@Foo.COM:8080/a" = "foo.com" := by decide
example : sanitizeDomain "not a url" = "notaurl" := by decide
example : sanitizeDomain "HTTP://a b/x" = "ab" := by decide
example : sanitizeDomain "https://example.com:99999" = "example.com99999" := by decide
example : sanitizeDomain "sub.domain.example.org/path" = "sub.domain.example.org" := by decide
example : sanitizeDomain "foo://ABC.example" = "ABC.example" := by decide
example : sanitizeDomain "ABC.example" = "abc.example" := by decide
example : sanitizeDomain "foo://u@HOST.x:99/p?q" = "HOST.x" := by decide
example : sanitizeDomain "foo:x://y" = "" := by decide
example : sanitizeDomain "foo://u@" = "foo" := by decide
example : sanitizeDomain "foo://:80" = "foo" := by decide

example :
    substitutedUrlCard
      ⟨"t", "T", "d", "https://x.test/\x7b\x7bDOMAIN_NAME\x7d\x7d", some UrlType.domain_name, "c"⟩
      "sub.example.com" = "https://x.test/sub" := by decide
example :
    generateLink
      ⟨"t", "T", "d", "https://x.test/\x7b\x7bDOMAIN_NAME\x7d\x7d", some UrlType.domain_name, "c"⟩
      "sub.example.com" = Except.ok "https://x.test/sub" := by rfl
example :
    substitutedUrlCard
      ⟨"t", "T", "d", "https://who.is/whois/\x7b\x7bDOMAIN\x7d\x7d", some UrlType.domain, "c"⟩
      "example.com" = "https://who.is/whois/example.com" := by decide
example :
    substitutedUrlCard ⟨"t", "T", "d", "\x7b\x7bDOMAIN\x7d\x7d", some UrlType.domain, "c"⟩
      "$$" = "$" := by decide
example :
    generateLink ⟨"t", "T", "d", "::bad \x7b\x7bDOMAIN\x7d\x7d", none, "c"⟩
      "example.com" = Except.error "#" := by rfl

example : jsonParse "[\"a\",\"b\"]" = some (Json.arr [Json.str "a", Json.str "b"]) := by rfl
example : jsonParse "5" = some (Json.num "5") := by rfl
example : jsonParse "\"abc\"" = some (Json.str "abc") := by rfl
example : jsonParse "]" = none := by rfl
example : jsonParse "not json" = none := by rfl
example : jsonParse "[1," = none := by rfl
example : jsonParse "012" = none := by rfl
example : jsonParse " \x7b\"a\": [1.5e3, true, null]\x7d " =
    some (Json.obj [("a", Json.arr [Json.num "1.5e3", Json.bool true, Json.null])]) := by rfl
example : loadFavorites none = Json.arr [] := by rfl
example : loadFavorites (some "") = Json.arr [] := by rfl
example : loadFavorites (some "garbage") = Json.arr [] := by rfl
example : loadFavorites (some "\"abc\"") = Json.str "abc" := by rfl

/-! ### Helper lemmas -/

theorem splitOnChar_ne_nil (sep : Char) (l : List Char) : splitOnChar sep l ≠ [] := by
  cases l with
  | nil => simp [splitOnChar]
  | cons c cs =>
    simp only [splitOnChar]
    split
    · simp
    · split <;> simp

theorem splitOnChar_head (sep : Char) (l : List Char) :
    (splitOnChar sep l).head? = some (l.takeWhile (· ≠ sep)) := by
  induction l with
  | nil => simp [splitOnChar]
  | cons c cs ih =>
    simp only [splitOnChar]
    cases h : splitOnChar sep cs with
    | nil => exact absurd h (splitOnChar_ne_nil sep cs)
    | cons h' t =>
      rw [h] at ih
      simp only [List.head?_cons, Option.some.injEq] at ih
      by_cases hc : c = sep
      · subst hc
        simp [List.takeWhile_cons]
      · simp [hc, List.takeWhile_cons, ih]

theorem expandRepl_no_dollar (m b a : List Char) (rep : List Char) (h : '$' ∉ rep) :
    expandRepl m b a rep = rep := by
  induction rep with
  | nil => rfl
  | cons c r ih =>
    have hc : c ≠ '$' := fun hc => h (hc ▸ List.mem_cons_self c r)
    have hr : '$' ∉ r := fun hm => h (List.mem_cons_of_mem c hm)
    rw [expandRepl.eq_def]
    simp only [if_neg hc]
    rw [ih hr]

theorem jsReplaceL_no_dollar (l pat rep : List Char) (h : '$' ∉ rep) :
    jsReplaceL l pat rep = specReplaceFirstL l pat rep := by
  unfold jsReplaceL specReplaceFirstL
  cases h2 : findOcc l pat with
  | none => rfl
  | some i => simp [expandRepl_no_dollar _ _ _ _ h]

theorem getDomainPart_eq_spec (domain : String) (t : Option UrlType) :
    getDomainPart domain t = specDomainPart domain t := by
  unfold getDomainPart specDomainPart
  rw [splitOnChar_head]

theorem batchDomainPart_eq_card (tool : Tool) (domain : String) :
    batchDomainPart tool domain = getDomainPart domain tool.urlType := by
  unfold batchDomainPart getDomainPart
  rfl

theorem mem_of_mem_takeWhile {p : Char → Bool} {l : List Char} {c : Char}
    (h : c ∈ l.takeWhile p) : c ∈ l := by
  induction l with
  | nil => simp at h
  | cons a r ih =>
    rw [List.takeWhile_cons] at h
    by_cases hp : p a
    · rw [if_pos hp] at h
      rcases List.mem_cons.mp h with h1 | h2
      · exact h1 ▸ List.mem_cons_self a r
      · exact List.mem_cons_of_mem a (ih h2)
    · rw [if_neg hp] at h
      simp at h

theorem getDomainPart_no_dollar (domain : String) (t : Option UrlType)
    (h : '$' ∉ domain.data) : '$' ∉ (getDomainPart domain t).data := by
  rw [getDomainPart_eq_spec]
  unfold specDomainPart
  split
  · dsimp only
    split
    · exact h
    · exact fun hm => h (mem_of_mem_takeWhile hm)
  · exact h

theorem checkLabels_none {ls : List (List Char)} (h : checkLabels ls = none) :
    ∀ lab ∈ ls, lab.length ≤ 63 ∧ lab.head? ≠ some '-' ∧ lab.getLast? ≠ some '-' := by
  induction ls with
  | nil => simp
  | cons a t ih =>
    simp only [checkLabels] at h
    by_cases h1 : a.length > 63
    · rw [if_pos h1] at h
      exact absurd h (by simp)
    · rw [if_neg h1] at h
      by_cases h2 : (a.head? = some '-' || a.getLast? = some '-') = true
      · rw [if_pos h2] at h
        exact absurd h (by simp)
      · rw [if_neg h2] at h
        simp only [Bool.or_eq_true, decide_eq_true_eq, not_or] at h2
        intro lab hm
        rcases List.mem_cons.mp hm with rfl | hmem
        · exact ⟨by omega, by simpa using h2.1, by simpa using h2.2⟩
        · exact ih h lab hmem

theorem checkLabels_first_bad (good : List (List Char)) (bad : List Char)
    (rest : List (List Char))
    (hg : ∀ lab ∈ good, lab.length ≤ 63 ∧ lab.head? ≠ some '-' ∧ lab.getLast? ≠ some '-')
    (hb : bad.length > 63 ∨ bad.head? = some '-' ∨ bad.getLast? = some '-') :
    checkLabels (good ++ bad :: rest) =
      some (if bad.length > 63 then msgLabelTooLong bad else msgHyphen) := by
  induction good with
  | nil =>
    simp only [List.nil_append, checkLabels]
    by_cases h1 : bad.length > 63
    · rw [if_pos h1, if_pos h1]
    · rw [if_neg h1, if_neg h1]
      have h2 : bad.head? = some '-' ∨ bad.getLast? = some '-' := by
        rcases hb with hb | hb | hb
        · exact absurd hb h1
        · exact Or.inl hb
        · exact Or.inr hb
      rw [if_pos (by simpa using h2)]
  | cons a g ih =>
    obtain ⟨ha1, ha2, ha3⟩ := hg a (List.mem_cons_self a g)
    simp only [List.cons_append, checkLabels]
    rw [if_neg (by omega), if_neg (by simp [ha2, ha3])]
    exact ih (fun lab hm => hg lab (List.mem_cons_of_mem a hm))

/-! ### Character-level facts for the URL model -/

theorem charEq_iff_toNat {c d : Char} : c = d ↔ c.toNat = d.toNat :=
  ⟨fun h => h ▸ rfl,
   fun h => Char.eq_of_val_eq (UInt32.eq_of_toBitVec_eq (BitVec.eq_of_toNat_eq h))⟩

theorem charLe_iff_toNat {c d : Char} : c ≤ d ↔ c.toNat ≤ d.toNat := Iff.rfl

theorem toNat_ofNat_of_lt {n : Nat} (h : n < 55296) : (Char.ofNat n).toNat = n := by
  unfold Char.ofNat
  rw [dif_pos (Or.inl h)]
  simp [Char.ofNatAux, Char.toNat, UInt32.toNat]

theorem forbiddenHostChar_iff (c : Char) : forbiddenHostChar c = true ↔
    c.toNat = 0 ∨ c.toNat = 9 ∨ c.toNat = 10 ∨ c.toNat = 13 ∨ c.toNat = 32 ∨
    c.toNat = 35 ∨ c.toNat = 47 ∨ c.toNat = 58 ∨ c.toNat = 60 ∨ c.toNat = 62 ∨
    c.toNat = 63 ∨ c.toNat = 64 ∨ c.toNat = 91 ∨ c.toNat = 92 ∨ c.toNat = 93 ∨
    c.toNat = 94 ∨ c.toNat = 124 := by
  simp only [forbiddenHostChar, Bool.or_eq_true, beq_iff_eq, decide_eq_true_eq,
    charEq_iff_toNat,
    show ('#' : Char).toNat = 35 from rfl, show ('/' : Char).toNat = 47 from rfl,
    show (':' : Char).toNat = 58 from rfl, show ('<' : Char).toNat = 60 from rfl,
    show ('>' : Char).toNat = 62 from rfl, show ('?' : Char).toNat = 63 from rfl,
    show ('@' : Char).toNat = 64 from rfl, show ('[' : Char).toNat = 91 from rfl,
    show ('\\' : Char).toNat = 92 from rfl, show (']' : Char).toNat = 93 from rfl,
    show ('^' : Char).toNat = 94 from rfl, show ('|' : Char).toNat = 124 from rfl]
  tauto

theorem forbiddenDomainChar_iff (c : Char) : forbiddenDomainChar c = true ↔
    c.toNat < 33 ∨ c.toNat = 35 ∨ c.toNat = 37 ∨ c.toNat = 47 ∨ c.toNat = 58 ∨
    c.toNat = 60 ∨ c.toNat = 62 ∨ c.toNat = 63 ∨ c.toNat = 64 ∨ c.toNat = 91 ∨
    c.toNat = 92 ∨ c.toNat = 93 ∨ c.toNat = 94 ∨ c.toNat = 124 ∨ c.toNat = 127 := by
  simp only [forbiddenDomainChar, Bool.or_eq_true, forbiddenHostChar_iff,
    decide_eq_true_eq, beq_iff_eq, charEq_iff_toNat,
    show ('%' : Char).toNat = 37 from rfl]
  omega

theorem allowedDomainChar_iff (c : Char) : allowedDomainChar c = true ↔
    (97 ≤ c.toNat ∧ c.toNat ≤ 122) ∨ (65 ≤ c.toNat ∧ c.toNat ≤ 90) ∨
    (48 ≤ c.toNat ∧ c.toNat ≤ 57) ∨ c.toNat = 46 ∨ c.toNat = 45 := by
  simp only [allowedDomainChar, isAlnumC, isAsciiAlpha, isLowerAlpha, isUpperAlpha,
    isAsciiDigit, Bool.or_eq_true, Bool.and_eq_true, decide_eq_true_eq,
    charLe_iff_toNat, charEq_iff_toNat,
    show ('a' : Char).toNat = 97 from rfl, show ('z' : Char).toNat = 122 from rfl,
    show ('A' : Char).toNat = 65 from rfl, show ('Z' : Char).toNat = 90 from rfl,
    show ('0' : Char).toNat = 48 from rfl, show ('9' : Char).toNat = 57 from rfl,
    show ('.' : Char).toNat = 46 from rfl, show ('-' : Char).toNat = 45 from rfl]
  tauto

theorem isUpperAlpha_iff (c : Char) : isUpperAlpha c = true ↔
    65 ≤ c.toNat ∧ c.toNat ≤ 90 := by
  simp only [isUpperAlpha, Bool.and_eq_true, decide_eq_true_eq, charLe_iff_toNat,
    show ('A' : Char).toNat = 65 from rfl, show ('Z' : Char).toNat = 90 from rfl]

theorem isLowerAlpha_iff (c : Char) : isLowerAlpha c = true ↔
    97 ≤ c.toNat ∧ c.toNat ≤ 122 := by
  simp only [isLowerAlpha, Bool.and_eq_true, decide_eq_true_eq, charLe_iff_toNat,
    show ('a' : Char).toNat = 97 from rfl, show ('z' : Char).toNat = 122 from rfl]

theorem isAsciiDigit_iff (c : Char) : isAsciiDigit c = true ↔
    48 ≤ c.toNat ∧ c.toNat ≤ 57 := by
  simp only [isAsciiDigit, Bool.and_eq_true, decide_eq_true_eq, charLe_iff_toNat,
    show ('0' : Char).toNat = 48 from rfl, show ('9' : Char).toNat = 57 from rfl]

theorem isC0OrSpace_iff (c : Char) : isC0OrSpace c = true ↔ c.toNat ≤ 32 := by
  simp only [isC0OrSpace, decide_eq_true_eq]

theorem isTabOrNewline_iff (c : Char) : isTabOrNewline c = true ↔
    c.toNat = 9 ∨ c.toNat = 10 ∨ c.toNat = 13 := by
  simp only [isTabOrNewline, Bool.or_eq_true, beq_iff_eq]
  tauto

theorem lowerChar_toNat (c : Char) :
    (lowerChar c).toNat = if 65 ≤ c.toNat ∧ c.toNat ≤ 90 then c.toNat + 32 else c.toNat := by
  unfold lowerChar
  by_cases h : isUpperAlpha c = true
  · rw [if_pos h]
    have hr := (isUpperAlpha_iff c).mp h
    rw [if_pos hr]
    exact toNat_ofNat_of_lt (by omega)
  · rw [if_neg h]
    have hr : ¬(65 ≤ c.toNat ∧ c.toNat ≤ 90) := fun hc => h ((isUpperAlpha_iff c).mpr hc)
    rw [if_neg hr]

/-! ### List-level helpers for the URL model -/

theorem eq_false_of_iff {b : Bool} {P : Prop} (hiff : b = true ↔ P) (hnp : ¬P) :
    b = false := by
  rcases Bool.eq_false_or_eq_true b with h | h
  · exact absurd (hiff.mp h) hnp
  · exact h

theorem dropWhile_eq_self_of {p : Char → Bool} {l : List Char}
    (h : ∀ c ∈ l, p c = false) : l.dropWhile p = l := by
  cases l with
  | nil => rfl
  | cons a r =>
    rw [List.dropWhile_cons, if_neg (by simp [h a (List.mem_cons_self a r)])]

theorem dropWhileEnd_eq_self_of {p : Char → Bool} {l : List Char}
    (h : ∀ c ∈ l, p c = false) : dropWhileEnd p l = l := by
  unfold dropWhileEnd
  rw [dropWhile_eq_self_of (fun c hc => h c (List.mem_reverse.mp hc)), List.reverse_reverse]

theorem takeWhile_eq_self_of {p : Char → Bool} {l : List Char}
    (h : ∀ c ∈ l, p c = true) : l.takeWhile p = l :=
  List.takeWhile_eq_self_iff.mpr h

theorem dropWhile_eq_nil_of {p : Char → Bool} {l : List Char}
    (h : ∀ c ∈ l, p c = true) : l.dropWhile p = [] := by
  induction l with
  | nil => rfl
  | cons a r ih =>
    rw [List.dropWhile_cons, if_pos (by simp [h a (List.mem_cons_self a r)])]
    exact ih fun c hc => h c (List.mem_cons_of_mem a hc)

theorem takeWhile_append_all {p : Char → Bool} {a b : List Char}
    (ha : ∀ c ∈ a, p c = true)
    (hb : ∀ c rest, b = c :: rest → p c = false) :
    (a ++ b).takeWhile p = a := by
  induction a with
  | nil =>
    simp only [List.nil_append]
    cases b with
    | nil => rfl
    | cons c rest => rw [List.takeWhile_cons, if_neg (by simp [hb c rest rfl])]
  | cons x xs ih =>
    rw [List.cons_append, List.takeWhile_cons,
      if_pos (by simp [ha x (List.mem_cons_self x xs)])]
    rw [ih (fun c hc => ha c (List.mem_cons_of_mem x hc))]

theorem afterLastAt_eq_self {l : List Char} (h : ∀ c ∈ l, c ≠ '@') :
    afterLastAt l = l := by
  unfold afterLastAt
  rw [takeWhile_eq_self_of (fun c hc => by
        simpa using h c (List.mem_reverse.mp hc)),
    List.reverse_reverse]

theorem containsSubstr_colon_false {l p : List Char} (h : ':' ∉ l) :
    containsSubstr l (':' :: p) = false := by
  induction l with
  | nil => rfl
  | cons c r ih =>
    have hc : c ≠ ':' := fun hcc => h (hcc ▸ List.mem_cons_self c r)
    have hr : ':' ∉ r := fun hm => h (List.mem_cons_of_mem c hm)
    simp only [containsSubstr, List.isPrefixOf, Bool.or_eq_false_iff]
    constructor
    · simp [beq_iff_eq]
      intro hcon
      exact absurd hcon.symm hc
    · exact ih hr

theorem hostOkChar_iff (c : Char) : hostOkChar c = true ↔
    c.toNat < 128 ∧ forbiddenDomainChar c = false := by
  simp [hostOkChar]

/-- The central parsing computation: a special-scheme absolute URL whose
authority consists of plain host characters followed by an empty suffix
or one starting with `/` or `?` parses to the ASCII-lowercased host. -/
theorem parseHostname_parts (w sch host suffix : List Char)
    (hw : w = sch ++ ':' :: '/' :: '/' :: (host ++ suffix))
    (hsplit : splitScheme w = some (sch, '/' :: '/' :: (host ++ suffix)))
    (hspecial : (sch.map lowerChar) ∈ specialSchemes)
    (hschch : ∀ c ∈ sch, 32 < c.toNat)
    (hne : host ≠ [])
    (hh : ∀ c ∈ host, hostOkChar c = true)
    (hnum : endsInNumber (host.map lowerChar) = false)
    (hsuf : suffix = [] ∨ suffix.head? = some '/' ∨ suffix.head? = some '?')
    (hsufch : ∀ c ∈ suffix, 32 < c.toNat) :
    parseHostname w = some (host.map lowerChar) := by
  have hhost32 : ∀ c ∈ host, 32 < c.toNat := by
    intro c hc
    have := (hostOkChar_iff c).mp (hh c hc)
    have hforb := this.2
    rcases Nat.lt_or_ge 32 c.toNat with h32 | h32
    · exact h32
    · exact absurd ((forbiddenDomainChar_iff c).mpr (by omega)) (by simp [hforb])
  have hall : ∀ c ∈ w, 32 < c.toNat := by
    subst hw
    intro c hc
    simp only [List.mem_append, List.mem_cons] at hc
    rcases hc with hs | rfl | rfl | rfl | hrest
    · exact hschch c hs
    · decide
    · decide
    · decide
    · rcases hrest with hho | hsu
      · exact hhost32 c hho
      · exact hsufch c hsu
  have hid : (dropWhileEnd isC0OrSpace (w.dropWhile isC0OrSpace)).filter
      (fun c => !isTabOrNewline c) = w := by
    rw [dropWhile_eq_self_of (fun c hc =>
        eq_false_of_iff (isC0OrSpace_iff c) (by have := hall c hc; omega)),
      dropWhileEnd_eq_self_of (fun c hc =>
        eq_false_of_iff (isC0OrSpace_iff c) (by have := hall c hc; omega)),
      List.filter_eq_self.mpr (fun c hc => by
        rw [eq_false_of_iff (isTabOrNewline_iff c) (by have := hall c hc; omega)]
        rfl)]
  have hnotterm : ∀ c ∈ host,
      (!(c = '/' || c = '?' || c = '#' || c = '\\')) = true := by
    intro c hc
    have hf := ((hostOkChar_iff c).mp (hh c hc)).2
    have h47 : c.toNat ≠ 47 := fun he =>
      absurd ((forbiddenDomainChar_iff c).mpr (by omega)) (by simp [hf])
    have h63 : c.toNat ≠ 63 := fun he =>
      absurd ((forbiddenDomainChar_iff c).mpr (by omega)) (by simp [hf])
    have h35 : c.toNat ≠ 35 := fun he =>
      absurd ((forbiddenDomainChar_iff c).mpr (by omega)) (by simp [hf])
    have h92 : c.toNat ≠ 92 := fun he =>
      absurd ((forbiddenDomainChar_iff c).mpr (by omega)) (by simp [hf])
    simp only [Bool.not_eq_true', Bool.or_eq_false_iff, decide_eq_false_iff_not]
    exact ⟨⟨⟨fun hc' => h47 (charEq_iff_toNat.mp hc'), fun hc' => h63 (charEq_iff_toNat.mp hc')⟩,
      fun hc' => h35 (charEq_iff_toNat.mp hc')⟩, fun hc' => h92 (charEq_iff_toNat.mp hc')⟩
  have hnotcode : ∀ (n : Nat), (∀ c ∈ host, c.toNat ≠ n → True) → True := fun _ _ => trivial
  have hchar_ne : ∀ c ∈ host, ∀ (d : Char), forbiddenDomainChar d = true → c ≠ d := by
    intro c hc d hd he
    subst he
    exact absurd hd (by simp [((hostOkChar_iff c).mp (hh c hc)).2])
  unfold parseHostname
  rw [hid]
  dsimp only
  rw [hsplit]
  dsimp only
  rw [if_pos (by simpa using hspecial)]
  have hslash : ('/' :: '/' :: (host ++ suffix)).dropWhile (fun c => c = '/' || c = '\\') =
      host ++ suffix := by
    rw [List.dropWhile_cons, if_pos (by decide), List.dropWhile_cons, if_pos (by decide)]
    cases hhost : host with
    | nil => exact absurd hhost hne
    | cons x xs =>
      rw [List.cons_append, List.dropWhile_cons, if_neg (by
        have h47 := hchar_ne x (hhost ▸ List.mem_cons_self x xs) '/' (by decide)
        have h92 := hchar_ne x (hhost ▸ List.mem_cons_self x xs) '\\' (by decide)
        simp [h47, h92])]
  rw [hslash]
  have hauth : (host ++ suffix).takeWhile
      (fun c => !(c = '/' || c = '?' || c = '#' || c = '\\')) = host := by
    refine takeWhile_append_all hnotterm ?_
    intro c rest hcr
    rcases hsuf with hs | hs | hs
    · rw [hs] at hcr
      exact absurd hcr (by simp)
    · rw [hcr] at hs
      simp only [List.head?_cons, Option.some.injEq] at hs
      subst hs
      decide
    · rw [hcr] at hs
      simp only [List.head?_cons, Option.some.injEq] at hs
      subst hs
      decide
  rw [hauth]
  rw [afterLastAt_eq_self (fun c hc => hchar_ne c hc '@' (by decide))]
  have hsp : splitHostPort host = some host := by
    unfold splitHostPort
    cases hhost : host with
    | nil => exact absurd hhost hne
    | cons x xs =>
      rw [if_neg (by
        have h91 := hchar_ne x (hhost ▸ List.mem_cons_self x xs) '[' (by decide)
        simp [h91])]
      rw [takeWhile_eq_self_of (fun c hc => by
          have := hchar_ne c (hhost ▸ hc) ':' (by decide)
          simpa using this),
        dropWhile_eq_nil_of (fun c hc => by
          have := hchar_ne c (hhost ▸ hc) ':' (by decide)
          simpa using this)]
  rw [hsp]
  dsimp only
  unfold domainHost
  rw [if_neg (by simp [hne]), if_neg (by
      rw [List.any_eq_true]
      rintro ⟨c, hc, hcon⟩
      have hok := (hostOkChar_iff c).mp (hh c hc)
      rcases Bool.or_eq_true _ _ |>.mp hcon with h1 | h2
      · have : (127 : Nat) ≤ c.toNat := by simpa using h1
        have h127 : c.toNat ≠ 127 := fun he =>
          absurd ((forbiddenDomainChar_iff c).mpr (by omega)) (by simp [hok.2])
        omega
      · exact absurd h2 (by simp [hok.2]))]
  simp only
  rw [if_neg (by simp [hnum])]

theorem allowedDomainChar_gt32 {c : Char} (h : allowedDomainChar c = true) :
    32 < c.toNat := by
  have hr := (allowedDomainChar_iff c).mp h
  omega

theorem map_lowerChar_eq_self {y : List Char}
    (h : ∀ c ∈ y, isUpperAlpha c = false) : y.map lowerChar = y := by
  induction y with
  | nil => rfl
  | cons a r ih =>
    rw [List.map_cons, ih (fun c hc => h c (List.mem_cons_of_mem a hc))]
    congr 1
    unfold lowerChar
    rw [if_neg (by simp [h a (List.mem_cons_self a r)])]

/-- Fixed-point lemma: any list of sanitize-output characters that does
not start with `www.` and does not end in an IPv4-like numeric label is
left unchanged by `sanitizeL`. -/
theorem sanitizeL_fixed (y : List Char)
    (hch : ∀ c ∈ y, hostOkChar c = true ∧ isUpperAlpha c = false)
    (hwww : ['w','w','w','.'].isPrefixOf y = false)
    (hnum : endsInNumber y = false) :
    sanitizeL y = y := by
  by_cases hy : y = []
  · subst hy
    rfl
  · have hnocolon : ':' ∉ y := by
      intro hm
      have hok := ((hostOkChar_iff ':').mp (hch ':' hm).1).2
      exact absurd (show forbiddenDomainChar ':' = true by decide) (by simp [hok])
    have hlow : y.map lowerChar = y := map_lowerChar_eq_self (fun c hc => (hch c hc).2)
    unfold sanitizeL
    rw [if_neg (by simp [hy]),
      if_neg (by simp [containsSubstr_colon_false hnocolon]),
      parseHostname_parts (['h','t','t','p','s',':','/','/'] ++ y)
        ['h','t','t','p','s'] y [] (by simp) (by rw [List.append_nil]; rfl)
        (by decide) (by decide) hy (fun c hc => (hch c hc).1)
        (by rw [hlow]; exact hnum) (Or.inl rfl) (by simp)]
    dsimp only
    rw [hlow]
    unfold stripWww
    rw [if_neg (by simp [hwww])]

/-- C6 counterexample: `sanitizeDomain` is not idempotent, in three
ways.  A double `www.` prefix is stripped one label per application; a
host whose final label is numeric is IPv4-normalized on the second pass
after the first pass produced it through the fallback branch; and a
non-special scheme yields a case-preserving opaque host, which the
second pass (reparsed under `https://`) lowercases. -/
theorem sanitize_not_idempotent :
    sanitizeDomain (sanitizeDomain "www.www.example.com") ≠
      sanitizeDomain "www.www.example.com" ∧
    sanitizeDomain (sanitizeDomain "1.2.3 .04") ≠ sanitizeDomain "1.2.3 .04" ∧
    sanitizeDomain (sanitizeDomain "foo://ABC.example") ≠
      sanitizeDomain "foo://ABC.example" :=
  ⟨by decide, by decide, by decide⟩

/-- C6 (amended): `sanitizeDomain` is idempotent on every input whose
sanitized form consists only of ASCII characters that are neither
forbidden domain code points nor uppercase letters, does not start with
the label `www.`, does not end in an IPv4-like all-numeric label, and
has no dot-separated label starting with `xn--`.  The `xn--` exclusion
is required by the real parser's punycode (IDNA) validation, which lies
outside the modelled fragment; the model proof does not consume that
hypothesis. -/
theorem sanitize_idempotent_amended (x : String)
    (hch : ∀ c ∈ (sanitizeDomain x).data, hostOkChar c = true ∧ isUpperAlpha c = false)
    (hwww : ['w','w','w','.'].isPrefixOf (sanitizeDomain x).data = false)
    (hnum : endsInNumber (sanitizeDomain x).data = false)
    (_hxn : ∀ lab ∈ splitOnChar '.' (sanitizeDomain x).data,
      ['x','n','-','-'].isPrefixOf lab = false) :
    sanitizeDomain (sanitizeDomain x) = sanitizeDomain x := by
  unfold sanitizeDomain
  congr 1
  exact sanitizeL_fixed _ hch hwww hnum

/-- Witness for C6: an input whose sanitized form (`example.com`) meets
every condition, hence is a fixed point. -/
theorem sanitize_idempotent_amended_witness :
    sanitizeDomain (sanitizeDomain "https://Example.com/x") =
      sanitizeDomain "https://Example.com/x" :=
  sanitize_idempotent_amended "https://Example.com/x" (by decide) (by decide) (by decide)
    (by decide)

/-! ### C2 — order of the validator's label rules -/

/-- C2 counterexample: in `"-x.<64 b's>.com"` a label exceeds 63
characters and another label starts with a hyphen, but because the
hyphen-violating label comes first, `validateDomain` returns the
hyphen-placement error, not the "label too long" error the claim
requires "regardless of which label comes first". -/
theorem validate_order_counterexample :
    validateDomain
      "-x.bbbbbbbbbbbbbbbbbbbbbbbbbbbbbbbbbbbbbbbbbbbbbbbbbbbbbbbbbbbbbbbb.com" =
      some msgHyphen ∧
    msgHyphen ≠
      msgLabelTooLong
        "bbbbbbbbbbbbbbbbbbbbbbbbbbbbbbbbbbbbbbbbbbbbbbbbbbbbbbbbbbbbbbbb".data :=
  ⟨by rfl, by decide⟩

/-- C2 (amended): the validator applies its rules in the documented
order except that rules 6 and 7 are interleaved in one left-to-right
pass over the labels, checking the 63-character bound before the hyphen
rule *within each label*: once rules 1-5 pass, the error reported is
determined by the first label violating either rule — the "label too
long" error when that label is overlong, the hyphen error otherwise. -/
theorem validate_first_bad_label (d : String) (good : List (List Char)) (bad : List Char)
    (rest : List (List Char))
    (h0 : (jsTrim d.data).isEmpty = false)
    (h1 : (jsTrim d.data).length ≤ 253)
    (h2 : (jsTrim d.data).all allowedDomainChar = true)
    (h3 : (jsTrim d.data).contains '.' = true)
    (h4 : splitOnChar '.' (jsTrim d.data) = good ++ bad :: rest)
    (h5 : [] ∉ splitOnChar '.' (jsTrim d.data))
    (hg : ∀ lab ∈ good, lab.length ≤ 63 ∧ lab.head? ≠ some '-' ∧ lab.getLast? ≠ some '-')
    (hb : bad.length > 63 ∨ bad.head? = some '-' ∨ bad.getLast? = some '-') :
    validateDomain d = some (if bad.length > 63 then msgLabelTooLong bad else msgHyphen) := by
  simp only [validateDomain]
  rw [if_neg (by simp [h0]), if_neg (by omega),
    if_neg (by
      intro hcon
      rw [List.any_eq_true] at hcon
      obtain ⟨x, hx, hneg⟩ := hcon
      have := List.all_eq_true.mp h2 x hx
      simp [this] at hneg),
    if_neg (by simpa using h3),
    if_neg (by
      intro hcon
      rw [List.any_eq_true] at hcon
      obtain ⟨lab, hm, he⟩ := hcon
      exact h5 ((List.isEmpty_iff.mp he) ▸ hm)),
    h4, checkLabels_first_bad good bad rest hg hb]

/-- Witness for C2: with the overlong label first and a hyphen-violating
label later, the error returned is the "label too long" one naming the
overlong label. -/
theorem validate_first_bad_label_witness :
    validateDomain
      "a.bbbbbbbbbbbbbbbbbbbbbbbbbbbbbbbbbbbbbbbbbbbbbbbbbbbbbbbbbbbbbbbb.-x.com" =
      some (if ("bbbbbbbbbbbbbbbbbbbbbbbbbbbbbbbbbbbbbbbbbbbbbbbbbbbbbbbbbbbbbbbb".data).length > 63
            then msgLabelTooLong
              "bbbbbbbbbbbbbbbbbbbbbbbbbbbbbbbbbbbbbbbbbbbbbbbbbbbbbbbbbbbbbbbb".data
            else msgHyphen) :=
  validate_first_bad_label
    "a.bbbbbbbbbbbbbbbbbbbbbbbbbbbbbbbbbbbbbbbbbbbbbbbbbbbbbbbbbbbbbbbb.-x.com"
    ["a".data]
    "bbbbbbbbbbbbbbbbbbbbbbbbbbbbbbbbbbbbbbbbbbbbbbbbbbbbbbbbbbbbbbbb".data
    ["-x".data, "com".data]
    (by rfl) (by decide) (by rfl) (by rfl) (by rfl) (by decide) (by decide) (by decide)

/-! ### C1 — what a validated domain guarantees -/

/-- C1 counterexample: `validateDomain` trims its argument before every
check, so `" example.com"` validates with no error although the argument
itself contains a space, which is outside `[a-zA-Z0-9.-]` — the claim's
guarantee is about the untrimmed argument and fails. -/
theorem validate_trim_counterexample :
    validateDomain " example.com" = none ∧
    ' ' ∈ " example.com".data ∧ allowedDomainChar ' ' = false :=
  ⟨by rfl, by decide, by rfl⟩

/-- C1 (amended): if `validateDomain d` returns no error, then the
*trimmed* argument consists only of characters `[a-zA-Z0-9.-]`, contains
at least one dot, has length at most 253, has no empty dot-separated
label, no label longer than 63 characters, no label starting or ending
with a hyphen, and its final label is not composed entirely of digits. -/
theorem validate_none_guarantees (d : String) (h : validateDomain d = none) :
    (∀ c ∈ jsTrim d.data, allowedDomainChar c = true) ∧
    '.' ∈ jsTrim d.data ∧
    (jsTrim d.data).length ≤ 253 ∧
    (∀ lab ∈ splitOnChar '.' (jsTrim d.data),
      lab ≠ [] ∧ lab.length ≤ 63 ∧ lab.head? ≠ some '-' ∧ lab.getLast? ≠ some '-') ∧
    ((splitOnChar '.' (jsTrim d.data)).getLastD []).all isAsciiDigit = false := by
  simp only [validateDomain] at h
  by_cases e1 : (jsTrim d.data).isEmpty = true
  · rw [if_pos e1] at h
    exact absurd h (by simp)
  · rw [if_neg e1] at h
    by_cases e2 : (jsTrim d.data).length > 253
    · rw [if_pos e2] at h
      exact absurd h (by simp)
    · rw [if_neg e2] at h
      by_cases e3 : (jsTrim d.data).any (fun c => !allowedDomainChar c) = true
      · rw [if_pos e3] at h
        exact absurd h (by simp)
      · rw [if_neg e3] at h
        by_cases e4 : (!(jsTrim d.data).contains '.') = true
        · rw [if_pos e4] at h
          exact absurd h (by simp)
        · rw [if_neg e4] at h
          by_cases e5 : (splitOnChar '.' (jsTrim d.data)).any List.isEmpty = true
          · rw [if_pos e5] at h
            exact absurd h (by simp)
          · rw [if_neg e5] at h
            cases hc : checkLabels (splitOnChar '.' (jsTrim d.data)) with
            | some e =>
              rw [hc] at h
              exact absurd h (by simp)
            | none =>
              rw [hc] at h
              have e3' : (jsTrim d.data).any (fun c => !allowedDomainChar c) = false := by
                simpa using e3
              have e5' : [] ∉ splitOnChar '.' (jsTrim d.data) := by simpa using e5
              rw [List.any_eq_false] at e3'
              have hne : ∀ lab ∈ splitOnChar '.' (jsTrim d.data), lab ≠ [] := by
                intro lab hm hcon
                exact e5' (hcon ▸ hm)
              refine ⟨?_, ?_, by omega, ?_, ?_⟩
              · intro c hm
                simpa using e3' c hm
              · have e4' : (jsTrim d.data).contains '.' = true := by simpa using e4
                simpa [List.elem_iff] using e4'
              · intro lab hm
                obtain ⟨hl1, hl2, hl3⟩ := checkLabels_none hc lab hm
                exact ⟨hne lab hm, hl1, hl2, hl3⟩
              · by_cases e6 :
                  (!((splitOnChar '.' (jsTrim d.data)).getLastD []).isEmpty &&
                    ((splitOnChar '.' (jsTrim d.data)).getLastD []).all isAsciiDigit) = true
                · rw [if_pos e6] at h
                  exact absurd h (by simp)
                · have htl : (splitOnChar '.' (jsTrim d.data)).getLastD [] ≠ [] := by
                    have hmem : (splitOnChar '.' (jsTrim d.data)).getLastD [] ∈
                        splitOnChar '.' (jsTrim d.data) := by
                      cases hsp : splitOnChar '.' (jsTrim d.data) with
                      | nil => exact absurd hsp (splitOnChar_ne_nil _ _)
                      | cons x xs =>
                        rw [List.getLastD_eq_getLast?]
                        have := List.getLast?_eq_getLast (x :: xs) (by simp)
                        rw [this]
                        exact List.getLast_mem _
                    exact hne _ hmem
                  have hemp : ((splitOnChar '.' (jsTrim d.data)).getLastD []).isEmpty = false := by
                    simpa [List.isEmpty_iff] using htl
                  by_contra hcon
                  have hall : ((splitOnChar '.' (jsTrim d.data)).getLastD []).all
                      isAsciiDigit = true := by
                    rcases Bool.eq_false_or_eq_true
                      (((splitOnChar '.' (jsTrim d.data)).getLastD []).all isAsciiDigit) with
                      hd | hd
                    · exact hd
                    · exact absurd hd hcon
                  exact e6 (by rw [hemp, hall]; rfl)

/-- Witness for C1: the guarantees hold for the accepted domain
`"example.com"`. -/
theorem validate_none_guarantees_witness :
    '.' ∈ jsTrim "example.com".data ∧ (jsTrim "example.com".data).length ≤ 253 :=
  ⟨(validate_none_guarantees "example.com" (by rfl)).2.1,
   (validate_none_guarantees "example.com" (by rfl)).2.2.1⟩

/-! ### C3 — template substitution -/

/-- C3 counterexample: for the domain string `"$$"` the code does not
replace `\x7b\x7bDOMAIN\x7d\x7d` with the domain: JavaScript `replace`
interprets `$$` in the replacement string as a single literal dollar, so
the substituted URL is `"$"` while the claim's verbatim substitution
yields `"$$"`. -/
theorem substitution_dollar_counterexample :
    substitutedUrlCard ⟨"t", "T", "d", "\x7b\x7bDOMAIN\x7d\x7d", some UrlType.domain, "c"⟩
      "$$" = "$" ∧
    specSubstitute ⟨"t", "T", "d", "\x7b\x7bDOMAIN\x7d\x7d", some UrlType.domain, "c"⟩
      "$$" = "$$" :=
  ⟨by rfl, by rfl⟩

/-- C3 (amended): for every tool descriptor and every domain string not
containing a dollar sign, the substituted URL is exactly what the claim
describes: `domainPart` is the part of the domain before the first dot
when `urlType` is `domain_name` (falling back to the full domain when
there is no dot or that part is empty), otherwise the domain itself; the
first occurrence of `\x7b\x7bDOMAIN\x7d\x7d` is replaced by the domain
and the first occurrence of `\x7b\x7bDOMAIN_NAME\x7d\x7d` by
`domainPart` in the template. -/
theorem substitution_matches_spec (tool : Tool) (domain : String)
    (h : '$' ∉ domain.data) :
    substitutedUrlCard tool domain = specSubstitute tool domain := by
  unfold substitutedUrlCard specSubstitute jsReplace
  show String.mk (jsReplaceL (jsReplaceL tool.urlTemplate.data tokDomain.data domain.data)
    tokDomainName.data (getDomainPart domain tool.urlType).data) = _
  rw [jsReplaceL_no_dollar _ _ _ h,
    jsReplaceL_no_dollar _ _ _ (getDomainPart_no_dollar domain tool.urlType h),
    getDomainPart_eq_spec]

/-- Witness for C3: the claim's own example, a dollar-free domain, where
the code's substitution and the claim's substitution agree and produce
`https://x.test/sub`. -/
theorem substitution_matches_spec_witness :
    substitutedUrlCard
      ⟨"t", "T", "d", "https://x.test/\x7b\x7bDOMAIN_NAME\x7d\x7d", some UrlType.domain_name, "c"⟩
      "sub.example.com" =
    specSubstitute
      ⟨"t", "T", "d", "https://x.test/\x7b\x7bDOMAIN_NAME\x7d\x7d", some UrlType.domain_name, "c"⟩
      "sub.example.com" ∧
    substitutedUrlCard
      ⟨"t", "T", "d", "https://x.test/\x7b\x7bDOMAIN_NAME\x7d\x7d", some UrlType.domain_name, "c"⟩
      "sub.example.com" = "https://x.test/sub" :=
  ⟨substitution_matches_spec _ "sub.example.com" (by decide), by rfl⟩

/-! ### C9 — the card path and the batch path compute the same URL -/

/-- C9: for every tool descriptor and every domain string, the
substituted URL computed in the tool card effect (domain-part selection
by `urlType` followed by first-occurrence replacement of the two
placeholder tokens) equals the one computed independently in the
batch-open loop. -/
theorem card_batch_same_url (tool : Tool) (domain : String) :
    substitutedUrlCard tool domain = batchUrl tool domain := by
  unfold substitutedUrlCard batchUrl
  rw [batchDomainPart_eq_card]

/-! ### C5 — invalid substituted URLs become the error branch -/

/-- C5: whenever the substituted template string is not a well-formed
absolute URL (URL parsing fails), the tool card effect takes the error
branch — `Except.error` with the error-state `finalUrl` — rather than
propagating an exception; the model's `generateLink` is total, matching
the per-tool `try`/`catch` of the source. -/
theorem generate_invalid_url_is_error (tool : Tool) (domain : String)
    (h : parseHostname (substitutedUrlCard tool domain).data = none) :
    generateLink tool domain = Except.error "#" := by
  unfold generateLink
  rw [h]

/-- Witness for C5: a template whose substitution is not a URL. -/
theorem generate_invalid_url_is_error_witness :
    generateLink ⟨"t", "T", "d", "::bad \x7b\x7bDOMAIN\x7d\x7d", none, "c"⟩ "example.com" =
      Except.error "#" :=
  generate_invalid_url_is_error
    ⟨"t", "T", "d", "::bad \x7b\x7bDOMAIN\x7d\x7d", none, "c"⟩ "example.com" (by rfl)

/-! ### C8 — sanitize is total, empty maps to empty, parse failure falls back -/

/-- C8: `sanitizeDomain` is a total function (it never raises); the
empty input returns the empty string, and whenever URL parsing of the
(scheme-prefixed) input fails, the result is the manual fallback
normalization instead of a propagated error. -/
theorem sanitize_total_and_fallback :
    sanitizeDomain "" = "" ∧
    ∀ s : String, s.data ≠ [] →
      parseHostname (if containsSubstr s.data [':', '/', '/'] then s.data
                     else ['h','t','t','p','s',':','/','/'] ++ s.data) = none →
      sanitizeDomain s = String.mk (sanitizeFallback s.data) := by
  refine ⟨rfl, fun s hne h => ?_⟩
  unfold sanitizeDomain sanitizeL
  rw [if_neg (by simpa using hne), h]

/-- Witness for C8: `"a b"` cannot be URL-parsed (space in host), so the
fallback branch produces its result. -/
theorem sanitize_total_and_fallback_witness :
    sanitizeDomain "a b" = String.mk (sanitizeFallback "a b".data) :=
  sanitize_total_and_fallback.2 "a b" (by decide) (by rfl)

/-! ### C4 — the batch-open loop opens every selected tool's URL -/

/-- C4 counterexample: among two selected tools the second has a
malformed template (its `generateLink` is the error outcome), yet the
batch loop opens two URLs — the malformed one included — not one.  The
claim's "only the N-1 successful URLs are opened" fails because the
batch path performs no URL validation. -/
theorem batch_opens_failed_tool :
    generateLink ⟨"b", "B", "d", "::bad \x7b\x7bDOMAIN\x7d\x7d", none, "c"⟩ "example.com" =
      Except.error "#" ∧
    handleOpenSelected ["a", "b"]
      [⟨"a", "A", "d", "https://who.is/\x7b\x7bDOMAIN\x7d\x7d", some UrlType.domain, "c"⟩,
       ⟨"b", "B", "d", "::bad \x7b\x7bDOMAIN\x7d\x7d", none, "c"⟩] "example.com" =
      ["https://who.is/example.com", "::bad example.com"] :=
  ⟨by rfl, by rfl⟩

/-- C4 (amended): the batch loop applies the substitution to each
selected tool in input order and opens one URL per selected id found in
the catalog, regardless of whether generation for that tool would
succeed — ids missing from the catalog are skipped, and no failure
aborts the remaining tools. -/
theorem batch_opens_every_found_selection (sel : List String) (tools : List Tool)
    (domain : String) :
    handleOpenSelected sel tools domain =
      (sel.filterMap (fun i => tools.find? (fun t => t.id == i))).map
        (fun t => batchUrl t domain) := by
  unfold handleOpenSelected
  suffices h : ∀ acc : List String,
      sel.foldl (fun opened toolId =>
        match tools.find? (fun t => t.id == toolId) with
        | none => opened
        | some tool => opened ++ [batchUrl tool domain]) acc =
      acc ++ (sel.filterMap (fun i => tools.find? (fun t => t.id == i))).map
        (fun t => batchUrl t domain) by
    simpa using h []
  induction sel with
  | nil => simp
  | cons i rest ih =>
    intro acc
    simp only [List.foldl_cons, List.filterMap_cons]
    cases hf : tools.find? (fun t => t.id == i) with
    | none => simpa [hf] using ih acc
    | some tool => simp [hf, ih (acc ++ [batchUrl tool domain])]

/-! ### C10 — favorites loading -/

/-- C10 counterexample: a stored value that is valid JSON but not a list
of tool ids (the JSON string `"abc"`) is installed as the favorites
state unchanged — the load does not fall back to the default empty
list, contradicting the claim that any corrupt value yields the
default. -/
theorem load_favorites_accepts_non_list :
    loadFavorites (some "\"abc\"") = Json.str "abc" ∧ Json.str "abc" ≠ Json.arr [] :=
  ⟨by rfl, fun h => Json.noConfusion h⟩

/-- C10 (amended): loading favorites never fails (the model is a total
function): an absent stored value or one that is not parseable JSON
yields the default empty list, while any string that parses as JSON —
list of tool ids or not — is installed as-is. -/
theorem load_favorites_cases (st : Option String) :
    (st = none → loadFavorites st = Json.arr []) ∧
    (∀ s, st = some s → jsonParse s = none → loadFavorites st = Json.arr []) ∧
    (∀ s v, st = some s → s ≠ "" → jsonParse s = some v → loadFavorites st = v) := by
  refine ⟨fun h => by rw [h]; rfl, fun s hs hp => ?_, fun s v hs hne hp => ?_⟩
  · subst hs
    simp only [loadFavorites]
    split
    · rfl
    · rw [hp]
  · subst hs
    simp only [loadFavorites]
    rw [if_neg (by simp [String.isEmpty_iff, hne]), hp]

/-- Witness for C10: the unparseable stored value `"]"` yields the
default empty favorites list. -/
theorem load_favorites_cases_witness : loadFavorites (some "]") = Json.arr [] :=
  (load_favorites_cases (some "]")).2.1 "]" rfl (by rfl)
